import Mathlib

/-!
Verification of the core of `sbml2dae` (file `src/sbml2dae/matlab.py`):
the dependency resolver (`write_local_states`), the expression translator
(`string2matlab`), the state-reference extractor (`get_states`), and the
emission entry points (`export_class`, `export_example`).

The Python source delegates lexing to the Python standard library module
`tokenize`, which is not part of this repository.  That lexer is modelled
from the specification (section 4.1): tokens are names, numeric literals,
the operators + - * / ^, punctuation (parentheses, comma, dot), separated
by blanks; any character outside that lexical grammar makes lexing fail
with a MalformedExpression error.  Everything downstream of the token
stream is translated directly from the Python source.
-/

namespace Sbml2dae

/-- Lexical token, tagged with its kind, mirroring the `(toknum, tokval)`
pairs the source reads from the token generator.  The bookkeeping tokens
(`ENCODING`, `NEWLINE`, `ENDMARKER`) are skipped by the source or
contribute the empty string, so they are not represented. -/
inductive Token where
  | name (s : String)
  | number (s : String)
  | op (s : String)
deriving DecidableEq

/-- Modelled from the spec: failure of lexical analysis ("MalformedExpression").
In the Python source this is the error raised by the external stdlib lexer. -/
inductive LexError where
  | malformedExpression
deriving DecidableEq

/-- Leading character of a name token. -/
def isNameStart (c : Char) : Bool :=
  c.isAlpha || c == '_'

/-- Continuation character of a name token. -/
def isNameChar (c : Char) : Bool :=
  c.isAlphanum || c == '_'

/-- Operator and punctuation characters of the supported grammar. -/
def isOpChar (c : Char) : Bool :=
  c == '+' || c == '-' || c == '*' || c == '/' || c == '^' ||
  c == '(' || c == ')' || c == ','

/-- A character of the supported lexical grammar.  A formula containing a
character with `goodChar c = false` is outside the grammar. -/
def goodChar (c : Char) : Bool :=
  c == ' ' || c == '\t' || isNameChar c || c == '.' || isOpChar c

/-- Maximal prefix of characters satisfying `p`, together with the rest. -/
def spanChars (p : Char → Bool) : List Char → List Char × List Char
  | [] => ([], [])
  | c :: cs =>
    if p c then
      let r := spanChars p cs
      (c :: r.1, r.2)
    else ([], c :: cs)

/-- Modelled from the spec: optional exponent part of a numeric literal.
An exponent marker not followed by digits is an invalid numeric literal. -/
def parseExponent : List Char → Except LexError (List Char × List Char)
  | [] => .ok ([], [])
  | c :: cs =>
    if c = 'e' ∨ c = 'E' then
      match cs with
      | d :: ds =>
        if d = '+' ∨ d = '-' then
          let pr := spanChars Char.isDigit ds
          if pr.1 = [] then .error .malformedExpression
          else .ok (c :: d :: pr.1, pr.2)
        else
          let pr := spanChars Char.isDigit cs
          if pr.1 = [] then .error .malformedExpression
          else .ok (c :: pr.1, pr.2)
      | [] => .error .malformedExpression
    else .ok ([], c :: cs)

/-- Modelled from the spec: optional fractional part of a numeric literal
(a dot followed by any number of digits). -/
def parseFrac : List Char → List Char × List Char
  | '.' :: r2 =>
    let fr := spanChars Char.isDigit r2
    ('.' :: fr.1, fr.2)
  | l => ([], l)

/-- Modelled from the spec: numeric literal starting with digit `c`,
optionally followed by a fractional part and an exponent. -/
def parseNumber (c : Char) (cs : List Char) : Except LexError (String × List Char) :=
  let pr := spanChars Char.isDigit cs
  let fr := parseFrac pr.2
  match parseExponent fr.2 with
  | .error e => .error e
  | .ok (es, r4) => .ok (String.mk (c :: pr.1 ++ fr.1 ++ es), r4)

/-- Modelled from the spec: the lexer.  Fuel-indexed recursion; every step
consumes at least one character, so `length + 1` fuel always suffices. -/
def tokenizeAux : Nat → List Char → Except LexError (List Token)
  | 0, _ => .error .malformedExpression
  | _ + 1, [] => .ok []
  | fuel + 1, c :: cs =>
    if c = ' ' ∨ c = '\t' then
      tokenizeAux fuel cs
    else if isNameStart c then
      let pr := spanChars isNameChar cs
      match tokenizeAux fuel pr.2 with
      | .error e => .error e
      | .ok ts => .ok (Token.name (String.mk (c :: pr.1)) :: ts)
    else if c.isDigit then
      match parseNumber c cs with
      | .error e => .error e
      | .ok (num, rest) =>
        match tokenizeAux fuel rest with
        | .error e => .error e
        | .ok ts => .ok (Token.number num :: ts)
    else if c = '.' then
      if cs.head?.any Char.isDigit then
        let fr := spanChars Char.isDigit cs
        match parseExponent fr.2 with
        | .error e => .error e
        | .ok (es, r2) =>
          match tokenizeAux fuel r2 with
          | .error e => .error e
          | .ok ts => .ok (Token.number (String.mk ('.' :: fr.1 ++ es)) :: ts)
      else
        match tokenizeAux fuel cs with
        | .error e => .error e
        | .ok ts => .ok (Token.op "." :: ts)
    else if isOpChar c then
      match tokenizeAux fuel cs with
      | .error e => .error e
      | .ok ts => .ok (Token.op (String.mk [c]) :: ts)
    else .error .malformedExpression

/-- Modelled from the spec: lexing a formula string into its token stream. -/
def tokenize (s : String) : Except LexError (List Token) :=
  tokenizeAux (s.length + 1) s.data

/-- One step of the result accumulation in `string2matlab` (the body of the
`for toknum, tokval ... in g` loop of the source): name tokens that are
parameter ids get the namespace accessor `p.`, the operators `* / ^` get the
elementwise dot, `+ -` get one space on each side, everything else is copied
verbatim onto the accumulated result. -/
def tokStep (parameters : List String) (result : String) (tok : Token) : String :=
  match tok with
  | Token.name tokval =>
    if tokval ∈ parameters then result ++ "p." ++ tokval
    else result ++ tokval
  | Token.op tokval =>
    if tokval = "*" ∨ tokval = "/" ∨ tokval = "^" then result ++ "." ++ tokval
    else if tokval = "+" ∨ tokval = "-" then result ++ " " ++ tokval ++ " "
    else result ++ tokval
  | Token.number tokval => result ++ tokval

/-- `Matlab.string2matlab` from the source: lex the formula and fold the
rewrite step over the token stream, starting from the empty result.  A lexer
error propagates to the caller (the source has no handler around it). -/
def string2matlab (parameters : List String) (math_expr : String) : Except LexError String :=
  match tokenize math_expr with
  | .error e => .error e
  | .ok g => .ok (g.foldl (tokStep parameters) "")

/-- One step of the result accumulation in `get_states` (the body of its
token loop): append a name token that is a known state id, ignore
everything else. -/
def stateStep (states : List String) (result : List String) (tok : Token) : List String :=
  match tok with
  | Token.name tokval => if tokval ∈ states then result ++ [tokval] else result
  | _ => result

/-- `Matlab.get_states` from the source: lex the formula and collect, in
token order and without deduplication, every name token whose text is one of
the known state ids. -/
def get_states (states : List String) (math_expr : String) : Except LexError (List String) :=
  match tokenize math_expr with
  | .error e => .error e
  | .ok g => .ok (g.foldl (stateStep states) [])

/-- Per-token rewrite exactly as the specification words it (section 4.3):
each token is mapped independently of its neighbours.  Stated separately
from `tokStep` so that the claim that the source's accumulating loop is
this independent per-token map can be proved as a theorem. -/
def specTok (parameterIds : List String) : Token → String
  | Token.name n => if n ∈ parameterIds then "p." ++ n else n
  | Token.op o =>
    if o = "*" ∨ o = "/" ∨ o = "^" then "." ++ o
    else if o = "+" ∨ o = "-" then " " ++ o ++ " " else o
  | Token.number v => v

/-- Concatenation of the per-token rewrites, with no other separator. -/
def concatTokens (parameterIds : List String) (ts : List Token) : String :=
  ts.foldr (fun t r => specTok parameterIds t ++ r) ""

/-- The name tokens of a token stream whose text is a known state id, in
token order (the specification's characterisation of `get_states`). -/
def nameIn (states : List String) : Token → Option String
  | Token.name n => if n ∈ states then some n else none
  | _ => none

/-- `StateType` from `sbml2dae.dae_model`, with the source's spelling of
the assignment kind. -/
inductive StateType where
  | ODE
  | ALGEBRAIC
  | ASSIGMENT
deriving DecidableEq

/-- A state of the DAE model, as the dictionary the source reads
(`id`, `type`, `equation`, `initialCondition`, `context`).  Numeric values
are kept in their printed form, which is all the exporter uses. -/
structure DaeState where
  id : String
  type : StateType
  equation : String
  initialCondition : String
  context : String
deriving DecidableEq

/-- A parameter of the DAE model (`id`, `value`), value in printed form. -/
structure Parameter where
  id : String
  value : String
deriving DecidableEq

/-- The DAE model as consumed by the exporter: `get_model_name()`,
`get_parameters()`, `get_states()`, `get_options()` (options as an
insertion-ordered association list, like the Python dict). -/
structure DaeModel where
  name : String
  parameters : List Parameter
  states : List DaeState
  options : List (String × String)
deriving DecidableEq

/-- The reference list of a state: the value `get_states` computes for its
equation against all state ids, or `[]` if lexing fails (the resolver never
reaches that point, since the error would have propagated). -/
def depsOf (states : List DaeState) (s : DaeState) : List String :=
  match get_states (states.map (fun t => t.id)) s.equation with
  | .ok l => l
  | .error _ => []

/-- Edge of the assignment-state reference graph: the assignment state with
id `a` references `b` in its equation. -/
def AsgEdge (states : List DaeState) (a b : String) : Prop :=
  ∃ s, s ∈ states ∧ s.type = StateType.ASSIGMENT ∧ s.id = a ∧ b ∈ depsOf states s

/-- The assignment-state reference graph contains a (directed, nonempty)
cycle: a path of edges from some id back to itself. -/
def HasCycle (states : List DaeState) : Prop :=
  ∃ (a : String) (l : List String), List.Chain (AsgEdge states) a (l ++ [a])

/-- The assignment-state reference graph is acyclic. -/
def Acyclic (states : List DaeState) : Prop :=
  ¬ HasCycle states

/-- Body of the `for state in self.dae.get_states()` scan inside the
resolver loop of `write_local_states` (source lines 214-228): skip states
that are not ASSIGMENT, skip states already defined, and when every
dependency is already known, write the defining line and append the id to
`known_states`.  The accumulator is `(known_states, written lines)`. -/
def scanStep (parameters stateIds : List String) (acc : List String × List String)
    (state : DaeState) : Except LexError (List String × List String) :=
  if state.type = StateType.ASSIGMENT then
    if state.id ∈ acc.1 then .ok acc
    else
      match get_states stateIds state.equation with
      | .error e => .error e
      | .ok dependencies =>
        if ∀ elem ∈ dependencies, elem ∈ acc.1 then
          match string2matlab parameters state.equation with
          | .error e => .error e
          | .ok equation =>
            .ok (acc.1 ++ [state.id],
                 acc.2 ++ ["\t\t\t" ++ state.id ++ " = " ++ equation ++ ";\n"])
        else .ok acc
  else .ok acc

/-- One full scan over the declared state list (the inner `for` loop). -/
def scanList (parameters stateIds : List String) (acc : List String × List String) :
    List DaeState → Except LexError (List String × List String)
  | [] => .ok acc
  | state :: rest =>
    match scanStep parameters stateIds acc state with
    | .error e => .error e
    | .ok acc2 => scanList parameters stateIds acc2 rest

/-- The `while len(known_states) != states_num` loop of the source, made
total with fuel: `.ok none` means the fuel ran out, i.e. the source's loop
runs this many scans without exiting (on a cyclic model it never exits). -/
def localStatesLoop (parameters stateIds : List String) (states : List DaeState)
    (statesNum : Nat) : Nat → List String × List String →
    Except LexError (Option (List String × List String))
  | 0, _ => .ok none
  | fuel + 1, acc =>
    if acc.1.length = statesNum then .ok (some acc)
    else
      match scanList parameters stateIds acc states with
      | .error e => .error e
      | .ok acc2 => localStatesLoop parameters stateIds states statesNum fuel acc2

/-- Body of the first loop of `write_local_states` (source lines 198-208):
an ODE or ALGEBRAIC state becomes known immediately, with its
`id = x(i,:);` line, `i` counting from 1 over ODE/ALGEBRAIC states only;
other states are skipped.  Accumulator: `(known_states, lines, i)`. -/
def odeAlgStep (acc : List String × List String × Nat) (state : DaeState) :
    List String × List String × Nat :=
  if state.type = StateType.ODE ∨ state.type = StateType.ALGEBRAIC then
    (acc.1 ++ [state.id],
     acc.2.1 ++ ["\t\t\t" ++ state.id ++ " = x(" ++ toString acc.2.2 ++ ",:);\n"],
     acc.2.2 + 1)
  else acc

/-- The first loop of `write_local_states`. -/
def odeAlgInit (states : List DaeState) : List String × List String × Nat :=
  List.foldl odeAlgStep ([], [], 1) states

/-- The ids of the ODE and ALGEBRAIC states in declaration order. -/
def odeAlgIds (states : List DaeState) : List String :=
  (states.filter
    (fun s => decide (s.type = StateType.ODE ∨ s.type = StateType.ALGEBRAIC))).map
    (fun s => s.id)

/-- `Matlab.write_local_states` from the source.  Returns the final
`known_states` list (the resolution order) together with the lines written
to the file; `.ok none` reports that the resolver's `while` loop did not
exit within `fuel` scans (the source would still be looping). -/
def write_local_states (parameters : List String) (states : List DaeState)
    (fuel : Nat) : Except LexError (Option (List String × List String)) :=
  let init := odeAlgInit states
  let lines0 := ["\t\t\t% ODE and algebraic states:\n"] ++ init.2.1 ++
    ["\n", "\t\t\t% Assigment states:\n"]
  match localStatesLoop parameters (states.map (fun s => s.id)) states
      states.length fuel (init.1, lines0) with
  | .error e => .error e
  | .ok none => .ok none
  | .ok (some (known, lines)) => .ok (some (known, lines ++ ["\n"]))

/-- `n` tab characters. -/
def tabs (n : Nat) : String :=
  String.mk (List.replicate n '\t')

/-- `Matlab.write_warning`: the generated-file banner, one list entry per
`f.write` call of the source. -/
def write_warning (tab : Nat) : List String :=
  [tabs tab ++ "% This file was automatically generated by OneModel.\n",
   tabs tab ++ "% Any changes you make to it will be overwritten",
   " the next time\n",
   tabs tab ++ "% the file is generated.\n\n"]

/-- `Matlab.write_class_header`. -/
def write_class_header (m : DaeModel) : List String :=
  ["classdef " ++ m.name ++ "\n"] ++ write_warning 1 ++
  ["\tproperties\n",
   "\t\tp      % Default model parameters.\n",
   "\t\tx0     % Default initial conditions.\n",
   "\t\tM      % Mass matrix for DAE systems.\n",
   "\t\topts   % Simulation options.\n",
   "\tend\n",
   "\n",
   "\tmethods\n"]

/-- `Matlab.write_constructor`. -/
def write_constructor (m : DaeModel) : List String :=
  ["\t\tfunction obj = " ++ m.name ++ "()\n",
   "\t\t\t%% Constructor of " ++ m.name ++ ".\n",
   "\t\t\tobj.p    = obj.default_parameters();\n",
   "\t\t\tobj.x0   = obj.initial_conditions();\n",
   "\t\t\tobj.M    = obj.mass_matrix();\n",
   "\t\t\tobj.opts = obj.simulation_options();\n",
   "\t\tend\n",
   "\n"]

/-- `Matlab.write_default_parameters`. -/
def write_default_parameters (m : DaeModel) : List String :=
  ["\t\tfunction p = default_parameters(~)\n",
   "\t\t\t%% Default parameters value.\n",
   "\t\t\tp = [];\n"] ++
  m.parameters.map (fun item => "\t\t\tp." ++ item.id ++ " = " ++ item.value ++ ";\n") ++
  ["\t\tend\n", "\n"]

/-- `Matlab.write_initial_conditions`; the ALGEBRAIC case is two `f.write`
calls in the source, hence two list entries. -/
def write_initial_conditions (m : DaeModel) : List String :=
  ["\t\tfunction x0 = initial_conditions(~)\n",
   "\t\t\t%% Default initial conditions.\n",
   "\t\t\tx0 = [\n"] ++
  (m.states.map (fun item =>
    if item.type = StateType.ODE then
      ["\t\t\t\t" ++ item.initialCondition ++ " % " ++ item.id ++ "\n"]
    else if item.type = StateType.ALGEBRAIC then
      ["\t\t\t\t" ++ item.initialCondition, "% " ++ item.id ++ " (algebraic)\n"]
    else [])).flatten ++
  ["\t\t\t];\n", "\t\tend\n", "\n"]

/-- The mass-matrix diagonal: 1 per ODE state, 0 per ALGEBRAIC state. -/
def massDiag (states : List DaeState) : List Nat :=
  states.foldl
    (fun m item =>
      if item.type = StateType.ODE then m ++ [1]
      else if item.type = StateType.ALGEBRAIC then m ++ [0]
      else m) []

/-- The string `"0 "` repeated `n` times. -/
def zerosRow (n : Nat) : String :=
  String.join (List.replicate n "0 ")

/-- `Matlab.write_mass_matrix`; the source's `while i < i_max` row loop
becomes a map over the indexed diagonal, one row per list entry. -/
def write_mass_matrix (m : DaeModel) : List String :=
  let d := massDiag m.states
  ["\t\tfunction M = mass_matrix(~)\n",
   "\t\t\t%% Mass matrix for DAE systems.\n",
   "\t\t\tM = [\n"] ++
  d.enum.map (fun iv =>
    "\t\t\t\t" ++ zerosRow iv.1 ++ toString iv.2 ++ " " ++
    zerosRow (d.length - iv.1 - 1) ++ "\n") ++
  ["\t\t\t];\n", "\t\tend\n", "\n"]

/-- `Matlab.write_simulation_options`; the Python dict iteration becomes a
map over the insertion-ordered association list. -/
def write_simulation_options (m : DaeModel) : List String :=
  ["\t\tfunction opts = simulation_options(~)\n",
   "\t\t\t%% Default simulation options.\n"] ++
  m.options.map (fun kv => "\t\t\topts." ++ kv.1 ++ " = " ++ kv.2 ++ ";\n") ++
  ["\t\tend\n", "\n"]

/-- The equation-emitting loop of `Matlab.write_ode` (source lines
253-267): for each ODE or ALGEBRAIC state, one written string containing
the `% der(id)` comment and the `dx(i,1) = equation;` line, `i` counting
over ODE/ALGEBRAIC states; ASSIGMENT states write nothing.  The ODE and
ALGEBRAIC branches of the source are identical, hence the single branch. -/
def odeEquationLines (parameters : List String) : List DaeState → Nat →
    Except LexError (List String)
  | [], _ => .ok []
  | item :: rest, i =>
    if item.type = StateType.ODE ∨ item.type = StateType.ALGEBRAIC then
      match string2matlab parameters item.equation with
      | .error e => .error e
      | .ok equation =>
        match odeEquationLines parameters rest (i + 1) with
        | .error e => .error e
        | .ok ls =>
          .ok (("\t\t\t% der(" ++ item.id ++ ")\n" ++
                "\t\t\tdx(" ++ toString i ++ ",1) = " ++ equation ++ ";\n\n") :: ls)
    else odeEquationLines parameters rest i

/-- `Matlab.write_ode`.  `.ok none` reports that `write_local_states`
never exited its loop within the fuel. -/
def write_ode (parameters : List String) (states : List DaeState) (fuel : Nat) :
    Except LexError (Option (List String)) :=
  match write_local_states parameters states fuel with
  | .error e => .error e
  | .ok none => .ok none
  | .ok (some kl) =>
    match odeEquationLines parameters states 1 with
    | .error e => .error e
    | .ok eqLines =>
      .ok (some
        (["\t\tfunction dx = ode(~,t,x,p)\n",
          "\t\t\t%% Evaluate the ODE.\n",
          "\t\t\t%\n",
          "\t\t\t% Args:\n",
          "\t\t\t%\t t Current time in the simulation.\n",
          "\t\t\t%\t x Array with the state value.\n",
          "\t\t\t%\t p Struct with the parameters.\n",
          "\t\t\t%\n",
          "\t\t\t% Return:\n",
          "\t\t\t%\t dx Array with the ODE.\n",
          "\n"] ++ kl.2 ++ eqLines ++ ["\t\tend\n"]))

/-- `Matlab.write_simout_2_struct`. -/
def write_simout_2_struct (m : DaeModel) (fuel : Nat) :
    Except LexError (Option (List String)) :=
  match write_local_states (m.parameters.map (fun p => p.id)) m.states fuel with
  | .error e => .error e
  | .ok none => .ok none
  | .ok (some kl) =>
    .ok (some
      (["\t\tfunction out = simout2struct(~,t,x,p)\n",
        "\t\t\t%% Convert the simulation output into",
        " an easy-to-use struct.\n",
        "\n",
        "\t\t\t% We need to transpose state matrix.\n",
        "\t\t\tx = x\x27;",
        "\n"] ++ kl.2 ++
       ["\t\t\t% Save simulation time.\n",
        "\t\t\tout.t = t;",
        "\n",
        "\n",
        "\t\t\t% Vector for extending single-value states",
        " and parameters.\n",
        "\t\t\tones_t = ones(size(t\x27));\n",
        "\n",
        "\n\t\t\t% Save states.\n"] ++
       m.states.map (fun item =>
         "\t\t\tout." ++ item.id ++ " = (" ++ item.id ++ ".*ones_t)\x27;\n") ++
       ["\n",
        "\t\t\t% Save parameters.\n"] ++
       m.parameters.map (fun item =>
         "\t\t\tout." ++ item.id ++ " = (p." ++ item.id ++ ".*ones_t)\x27;\n") ++
       ["\n",
        "\t\tend\n"]))

/-- Grouping of states by their `context`, preserving first-appearance
order of contexts and declaration order within each context (the semantics
of the Python dict built in `write_plot`). -/
def insertContext : List (String × List DaeState) → DaeState →
    List (String × List DaeState)
  | [], s => [(s.context, [s])]
  | (c, group) :: rest, s =>
    if c = s.context then (c, group ++ [s]) :: rest
    else (c, group) :: insertContext rest s

/-- All context groups of a state list. -/
def groupContexts (states : List DaeState) : List (String × List DaeState) :=
  states.foldl insertContext []

/-- `math.ceil(math.sqrt n)` on naturals. -/
def ceilSqrt (n : Nat) : Nat :=
  if Nat.sqrt n * Nat.sqrt n = n then Nat.sqrt n else Nat.sqrt n + 1

/-- The `while x * (y - 1) >= len(states): y -= 1` loop of `write_plot`,
started at `y = x`. -/
def shrinkY (x n : Nat) : Nat → Nat
  | 0 => 0
  | y + 1 => if n ≤ x * y then shrinkY x n y else y + 1

/-- `Matlab.write_plot`. -/
def write_plot (m : DaeModel) : List String :=
  ["\t\tfunction plot(~,out)\n",
   "\t\t\t%% Plot simulation result.\n"] ++
  ((groupContexts m.states).map (fun cg =>
    let x := ceilSqrt cg.2.length
    let y := shrinkY x cg.2.length x
    ["\t\t\tfigure(\x27Name\x27,\x27" ++ cg.1 ++ "\x27);\n"] ++
    (cg.2.enum.map (fun ist =>
      ["\t\t\tsubplot(" ++ toString x ++ "," ++ toString y ++ "," ++
         toString (ist.1 + 1) ++ ");\n",
       "\t\t\tplot(out.t, out." ++ ist.2.id ++ ");\n",
       "\t\t\ttitle(\"" ++ ist.2.id ++ "\");\n",
       "\t\t\tylim([0, +inf]);\n",
       "\t\t\tgrid on;\n",
       "\n"])).flatten)).flatten ++
  ["\t\tend\n"]

/-- A file-handle event of an emission call. -/
inductive FileEvent where
  | fopen
  | fclose
deriving DecidableEq

/-- The writer sequence of `export_class` between `open` and `close`.
Only `write_ode` and `write_simout_2_struct` can fail (they lex formulas)
or diverge (they run the resolver); the remaining writers are pure
templating.  `.ok none` again models the resolver looping forever. -/
def classBody (m : DaeModel) (fuel : Nat) : Except LexError (Option (List String)) :=
  let parameters := m.parameters.map (fun p => p.id)
  match write_ode parameters m.states fuel with
  | .error e => .error e
  | .ok none => .ok none
  | .ok (some odeLines) =>
    match write_simout_2_struct m fuel with
    | .error e => .error e
    | .ok none => .ok none
    | .ok (some simoutLines) =>
      .ok (some
        (write_class_header m ++ write_constructor m ++
         write_default_parameters m ++ write_initial_conditions m ++
         write_mass_matrix m ++ write_simulation_options m ++
         odeLines ++ simoutLines ++ write_plot m ++
         ["\tend\n", "end\n"]))

/-- `Matlab.export_class`, with its file-handle trace.  The source runs
`f = open(...)`, the writers, then `f.close()`; an error raised by a writer
(or the resolver looping forever) means `f.close()` is never reached, so
the trace records no close event on those paths. -/
def export_class (m : DaeModel) (fuel : Nat) :
    List FileEvent × Except LexError (Option (List String)) :=
  match classBody m fuel with
  | .ok (some lines) => ([FileEvent.fopen, FileEvent.fclose], .ok (some lines))
  | .ok none => ([FileEvent.fopen], .ok none)
  | .error e => ([FileEvent.fopen], .error e)

/-- `Matlab.export_example`, with its file-handle trace: every write is
pure templating, so the close is always reached. -/
def export_example (m : DaeModel) : List FileEvent × List String :=
  ([FileEvent.fopen, FileEvent.fclose],
   ["%% Example driver script for simulating \"" ++ m.name ++ "\" model.\n"] ++
   write_warning 0 ++
   ["clear all;\n",
    "close all;\n",
    "\n% Init model.\n",
    "m = " ++ m.name ++ "();\n",
    "\n% Solver options.\n",
    "opt = odeset(\x27AbsTol\x27,1e-8,\x27RelTol\x27,1e-8);\n",
    "opt = odeset(opt,\x27Mass\x27,m.M);\n",
    "\n% Simulation time span.\n",
    "tspan = [m.opts.t_init m.opts.t_end];\n",
    "\n[t,x] = ode15s(@(t,x) m.ode(t,x,m.p),tspan,m.x0,opt);\n",
    "out = m.simout2struct(t,x,m.p);\n",
    "\n% Plot result.\n",
    "m.plot(out);\n"])

/-! ### Basic facts about the translator and the extractor -/

/-- The accumulating rewrite step appends the independent per-token
rewrite to the accumulated result. -/
lemma tokStep_eq (P : List String) (acc : String) (t : Token) :
    tokStep P acc t = acc ++ specTok P t := by
  cases t with
  | name n =>
    by_cases h : n ∈ P <;> simp [tokStep, specTok, h, String.append_assoc]
  | op o =>
    by_cases h1 : o = "*" ∨ o = "/" ∨ o = "^"
    · simp [tokStep, specTok, h1, String.append_assoc]
    · by_cases h2 : o = "+" ∨ o = "-" <;>
        simp [tokStep, specTok, h1, h2, String.append_assoc]
  | number v => simp [tokStep, specTok]

/-- The source's accumulating loop over the token stream computes the
concatenation of the independent per-token rewrites. -/
lemma foldl_tokStep (P : List String) :
    ∀ (ts : List Token) (acc : String),
      ts.foldl (tokStep P) acc = acc ++ concatTokens P ts := by
  intro ts
  induction ts with
  | nil => intro acc; simp [concatTokens]
  | cons t ts ih =>
    intro acc
    simp only [List.foldl_cons, concatTokens, List.foldr_cons] at *
    rw [tokStep_eq, ih, String.append_assoc]

/-- Splitting the per-token concatenation along an append of streams. -/
lemma concatTokens_append (P : List String) :
    ∀ l1 l2 : List Token,
      concatTokens P (l1 ++ l2) = concatTokens P l1 ++ concatTokens P l2 := by
  intro l1 l2
  induction l1 with
  | nil => simp [concatTokens]
  | cons t l ih =>
    simp only [concatTokens, List.cons_append, List.foldr_cons] at *
    rw [ih, String.append_assoc]

/-- The extractor's accumulating loop computes the filtered name tokens. -/
lemma foldl_stateStep (S : List String) :
    ∀ (ts : List Token) (acc : List String),
      ts.foldl (stateStep S) acc = acc ++ ts.filterMap (nameIn S) := by
  intro ts
  induction ts with
  | nil => intro acc; simp
  | cons t ts ih =>
    intro acc
    cases t with
    | name n =>
      by_cases h : n ∈ S <;> simp [stateStep, nameIn, h, ih]
    | number v => simp [stateStep, nameIn, ih]
    | op o => simp [stateStep, nameIn, ih]

/-- C3: for every formula string that tokenizes successfully,
`string2matlab` rewrites each token independently in encounter order — a
name token among the parameter ids becomes `p.<name>`, an operator in
`* / ^` is prefixed with the elementwise dot, an operator in `+ -` gets a
single space on each side, every other token is copied verbatim — and the
result is the concatenation of those rewrites with no other separator; in
particular translating `a*b+c` with parameter set `{a}` gives
`p.a.*b + c`. -/
theorem c3_translate_rewrites_tokens_independently :
    (∀ (P : List String) (s : String) (ts : List Token),
        tokenize s = .ok ts →
        string2matlab P s = .ok (concatTokens P ts)) ∧
    string2matlab ["a"] "a*b+c" = .ok "p.a.*b + c" := by
  constructor
  · intro P s ts h
    simp [string2matlab, h, foldl_tokStep]
  · rfl

/-- Witness for C3 at a concrete input. -/
theorem c3_translate_rewrites_tokens_independently_witness :
    string2matlab ["k"] "k*y" =
      .ok (concatTokens ["k"] [Token.name "k", Token.op "*", Token.name "y"]) :=
  c3_translate_rewrites_tokens_independently.1 ["k"] "k*y"
    [Token.name "k", Token.op "*", Token.name "y"] rfl

/-- C4: for every formula string that tokenizes successfully and every set
of known state ids, `get_states` returns exactly the name tokens whose
text is a known state id, in token (first-occurrence) order and without
deduplicating repeats; in particular on `x + 2*y - z` with known ids
`{x, y, z, w}` it returns `[x, y, z]` (`w` absent), and on `x+x` with
known id `{x}` it returns `[x, x]`. -/
theorem c4_references_are_known_name_tokens_in_order :
    (∀ (S : List String) (s : String) (ts : List Token),
        tokenize s = .ok ts →
        get_states S s = .ok (ts.filterMap (nameIn S))) ∧
    get_states ["x", "y", "z", "w"] "x + 2*y - z" = .ok ["x", "y", "z"] ∧
    get_states ["x"] "x+x" = .ok ["x", "x"] := by
  refine ⟨?_, rfl, rfl⟩
  intro S s ts h
  simp [get_states, h, foldl_stateStep]

/-- Witness for C4 at a concrete input. -/
theorem c4_references_are_known_name_tokens_in_order_witness :
    get_states ["u"] "u - u" =
      .ok ([Token.name "u", Token.op "-", Token.name "u"].filterMap (nameIn ["u"])) :=
  c4_references_are_known_name_tokens_in_order.1 ["u"] "u - u"
    [Token.name "u", Token.op "-", Token.name "u"] rfl

/-- C10: `string2matlab` namespaces a parameter id wherever it occurs as a
name token, regardless of syntactic role — in particular as a function
call head: translating `f(x)` with parameter set `{f}` gives `p.f(x)`;
and in general any name token among the parameter ids becomes `p.<name>`
no matter which tokens surround it. -/
theorem c10_parameter_namespaced_in_any_role :
    string2matlab ["f"] "f(x)" = .ok "p.f(x)" ∧
    (∀ (P : List String) (n s : String) (ts1 ts2 : List Token),
        tokenize s = .ok (ts1 ++ Token.name n :: ts2) → n ∈ P →
        string2matlab P s =
          .ok (concatTokens P ts1 ++ ("p." ++ n) ++ concatTokens P ts2)) := by
  constructor
  · rfl
  · intro P n s ts1 ts2 h hn
    simp only [string2matlab, h]
    rw [foldl_tokStep, concatTokens_append]
    simp only [concatTokens, List.foldr_cons]
    have hs : specTok P (Token.name n) = "p." ++ n := by simp [specTok, hn]
    rw [hs]
    simp [String.append_assoc]

/-- Witness for C10 at a concrete input (parameter used as call head). -/
theorem c10_parameter_namespaced_in_any_role_witness :
    string2matlab ["g"] "g(y)" =
      .ok (concatTokens ["g"] [] ++ ("p." ++ "g") ++
        concatTokens ["g"] [Token.op "(", Token.name "y", Token.op ")"]) :=
  c10_parameter_namespaced_in_any_role.2 ["g"] "g" "g(y)" []
    [Token.op "(", Token.name "y", Token.op ")"] rfl (by simp)

/-! ### Lexer failure on characters outside the grammar -/

/-- `spanChars` splits its input, and the consumed prefix satisfies `p`. -/
lemma spanChars_split (p : Char → Bool) :
    ∀ l : List Char, l = (spanChars p l).1 ++ (spanChars p l).2 ∧
      ∀ c ∈ (spanChars p l).1, p c = true := by
  intro l
  induction l with
  | nil => exact ⟨rfl, by simp [spanChars]⟩
  | cons c cs ih =>
    by_cases h : p c
    · constructor
      · simp only [spanChars, h, if_true, List.cons_append]
        exact congrArg (List.cons c) ih.1
      · intro x hx
        simp only [spanChars, h, if_true, List.mem_cons] at hx
        rcases hx with rfl | hx
        · exact h
        · exact ih.2 x hx
    · constructor
      · simp [spanChars, h]
      · intro x hx
        simp [spanChars, h] at hx

/-- Name continuation characters are inside the grammar. -/
lemma goodChar_of_nameChar {c : Char} (h : isNameChar c = true) : goodChar c = true := by
  simp [goodChar, h]

/-- A name start character is also a name continuation character. -/
lemma isNameChar_of_start {c : Char} (h : isNameStart c = true) : isNameChar c = true := by
  simp [isNameStart] at h
  simp [isNameChar, Char.isAlphanum]
  tauto

/-- Digits are inside the grammar. -/
lemma goodChar_of_digit {c : Char} (h : c.isDigit = true) : goodChar c = true := by
  have hn : isNameChar c = true := by simp [isNameChar, Char.isAlphanum, h]
  exact goodChar_of_nameChar hn

/-- Operator characters are inside the grammar. -/
lemma goodChar_of_opChar {c : Char} (h : isOpChar c = true) : goodChar c = true := by
  simp [goodChar, h]

/-- The characters consumed by `parseExponent` are inside the grammar. -/
lemma parseExponent_split :
    ∀ (l es rest : List Char), parseExponent l = .ok (es, rest) →
      l = es ++ rest ∧ ∀ c ∈ es, goodChar c = true := by
  intro l es rest h
  cases l with
  | nil =>
    simp [parseExponent] at h
    obtain ⟨rfl, rfl⟩ := h
    exact ⟨rfl, by simp⟩
  | cons c cs =>
    by_cases hc : c = 'e' ∨ c = 'E'
    · have hgc : goodChar c = true := by rcases hc with rfl | rfl <;> decide
      cases cs with
      | nil => simp [parseExponent, hc] at h
      | cons d ds =>
        by_cases hd : d = '+' ∨ d = '-'
        · have hgd : goodChar d = true := by rcases hd with rfl | rfl <;> decide
          by_cases hpr : (spanChars Char.isDigit ds).1 = []
          · simp [parseExponent, hc, hd, hpr] at h
          · simp [parseExponent, hc, hd, hpr] at h
            obtain ⟨rfl, rfl⟩ := h
            constructor
            · simp only [List.cons_append]
              exact congrArg (fun t => c :: d :: t) (spanChars_split Char.isDigit ds).1
            · intro x hx
              rcases List.mem_cons.1 hx with rfl | hx
              · exact hgc
              · rcases List.mem_cons.1 hx with rfl | hx
                · exact hgd
                · exact goodChar_of_digit ((spanChars_split Char.isDigit ds).2 x hx)
        · by_cases hpr : (spanChars Char.isDigit (d :: ds)).1 = []
          · simp [parseExponent, hc, hd, hpr] at h
          · simp [parseExponent, hc, hd, hpr] at h
            obtain ⟨rfl, rfl⟩ := h
            constructor
            · simp only [List.cons_append]
              exact congrArg (List.cons c) (spanChars_split Char.isDigit (d :: ds)).1
            · intro x hx
              rcases List.mem_cons.1 hx with rfl | hx
              · exact hgc
              · exact goodChar_of_digit ((spanChars_split Char.isDigit (d :: ds)).2 x hx)
    · simp [parseExponent, hc] at h
      obtain ⟨rfl, rfl⟩ := h
      exact ⟨rfl, by simp⟩

/-- `parseFrac` splits its input, and the consumed prefix is inside the
grammar. -/
lemma parseFrac_split :
    ∀ l : List Char, l = (parseFrac l).1 ++ (parseFrac l).2 ∧
      ∀ c ∈ (parseFrac l).1, goodChar c = true := by
  intro l
  cases l with
  | nil => exact ⟨rfl, by simp [parseFrac]⟩
  | cons c2 r =>
    by_cases hc2 : c2 = '.'
    · subst hc2
      constructor
      · simp only [parseFrac, List.cons_append]
        exact congrArg (List.cons '.') (spanChars_split Char.isDigit r).1
      · intro x hx
        simp only [parseFrac, List.mem_cons] at hx
        rcases hx with rfl | hx
        · decide
        · exact goodChar_of_digit ((spanChars_split Char.isDigit r).2 x hx)
    · have hred : parseFrac (c2 :: r) = ([], c2 :: r) := by
        unfold parseFrac
        split
        · simp_all
        · rfl
      rw [hred]
      exact ⟨rfl, by simp⟩

/-- The characters consumed by `parseNumber` are inside the grammar. -/
lemma parseNumber_split :
    ∀ (c : Char) (cs : List Char) (s : String) (rest : List Char),
      parseNumber c cs = .ok (s, rest) →
      ∃ pre, cs = pre ++ rest ∧ ∀ x ∈ pre, goodChar x = true := by
  intro c cs s rest h
  simp only [parseNumber] at h
  rcases hex : parseExponent (parseFrac (spanChars Char.isDigit cs).2).2 with
    e | ⟨es, r4⟩
  · rw [hex] at h
    cases h
  · rw [hex] at h
    injection h with hpair
    injection hpair with hs1 hs2
    subst hs2
    obtain ⟨hsplit, hgood⟩ :=
      parseExponent_split (parseFrac (spanChars Char.isDigit cs).2).2 es r4 hex
    refine ⟨(spanChars Char.isDigit cs).1 ++
      (parseFrac (spanChars Char.isDigit cs).2).1 ++ es, ?_, ?_⟩
    · calc cs
          = (spanChars Char.isDigit cs).1 ++ (spanChars Char.isDigit cs).2 :=
            (spanChars_split Char.isDigit cs).1
        _ = (spanChars Char.isDigit cs).1 ++
              ((parseFrac (spanChars Char.isDigit cs).2).1 ++
                (parseFrac (spanChars Char.isDigit cs).2).2) :=
            congrArg (fun t => (spanChars Char.isDigit cs).1 ++ t)
              (parseFrac_split (spanChars Char.isDigit cs).2).1
        _ = (spanChars Char.isDigit cs).1 ++
              ((parseFrac (spanChars Char.isDigit cs).2).1 ++ (es ++ r4)) :=
            congrArg (fun t => (spanChars Char.isDigit cs).1 ++
              ((parseFrac (spanChars Char.isDigit cs).2).1 ++ t)) hsplit
        _ = (spanChars Char.isDigit cs).1 ++
              (parseFrac (spanChars Char.isDigit cs).2).1 ++ es ++ r4 := by
            simp [List.append_assoc]
    · intro x hx
      simp only [List.append_assoc, List.mem_append] at hx
      rcases hx with hx | hx | hx
      · exact goodChar_of_digit ((spanChars_split Char.isDigit cs).2 x hx)
      · exact (parseFrac_split (spanChars Char.isDigit cs).2).2 x hx
      · exact hgood x hx

/-- A character outside the grammar makes the lexer fail, whatever the
fuel: the lexer only ever consumes characters inside the grammar, so it
eventually faces the bad character and errors. -/
lemma tokenizeAux_error_of_bad :
    ∀ (fuel : Nat) (l : List Char), (∃ c ∈ l, goodChar c = false) →
      tokenizeAux fuel l = .error .malformedExpression := by
  intro fuel
  induction fuel with
  | zero => intro l _; rfl
  | succ n ih =>
    intro l hbad
    obtain ⟨b, hbl, hb⟩ := hbad
    cases l with
    | nil => cases hbl
    | cons c cs =>
      by_cases hgc : goodChar c = true
      · have hbcs : b ∈ cs := by
          rcases List.mem_cons.1 hbl with rfl | h
          · rw [hgc] at hb; cases hb
          · exact h
        simp only [tokenizeAux]
        split_ifs with h1 h2 h3 h4 h5 h6
        · exact ih cs ⟨b, hbcs, hb⟩
        · have hmem : b ∈ (spanChars isNameChar cs).2 := by
            have hsp := spanChars_split isNameChar cs
            rcases List.mem_append.1 (hsp.1 ▸ hbcs) with hx | hx
            · exact absurd hb (by rw [goodChar_of_nameChar (hsp.2 b hx)]; simp)
            · exact hx
          rw [ih _ ⟨b, hmem, hb⟩]
        · rcases hpn : parseNumber c cs with e | ⟨num, rest⟩
          · cases e
            rfl
          · obtain ⟨pre, hsplit, hgood⟩ := parseNumber_split c cs num rest hpn
            have hmem : b ∈ rest := by
              rcases List.mem_append.1 (hsplit ▸ hbcs) with hx | hx
              · exact absurd hb (by rw [hgood b hx]; simp)
              · exact hx
            simp only [ih _ ⟨b, hmem, hb⟩]
        · rcases hex : parseExponent (spanChars Char.isDigit cs).2 with e | ⟨es, r2⟩
          · cases e
            rfl
          · have hsp := spanChars_split Char.isDigit cs
            obtain ⟨hes, hgood⟩ :=
              parseExponent_split (spanChars Char.isDigit cs).2 es r2 hex
            have hmem : b ∈ r2 := by
              rcases List.mem_append.1 (hsp.1 ▸ hbcs) with hx | hx
              · exact absurd hb (by rw [goodChar_of_digit (hsp.2 b hx)]; simp)
              · rcases List.mem_append.1 (hes ▸ hx) with hy | hy
                · exact absurd hb (by rw [hgood b hy]; simp)
                · exact hy
            simp only [ih _ ⟨b, hmem, hb⟩]
        · rw [ih _ ⟨b, hbcs, hb⟩]
        · rw [ih _ ⟨b, hbcs, hb⟩]
        · rfl
      · simp only [Bool.not_eq_true] at hgc
        have h1 : ¬ (c = ' ' ∨ c = '\t') := by
          rintro (rfl | rfl) <;> simp [goodChar] at hgc
        have h2 : ¬ isNameStart c = true := by
          intro hs
          rw [goodChar_of_nameChar (isNameChar_of_start hs)] at hgc
          cases hgc
        have h3 : ¬ c.isDigit = true := by
          intro hs
          rw [goodChar_of_digit hs] at hgc
          cases hgc
        have h4 : ¬ c = '.' := by
          rintro rfl; simp [goodChar] at hgc
        have h5 : ¬ isOpChar c = true := by
          intro hs
          rw [goodChar_of_opChar hs] at hgc
          cases hgc
        simp only [tokenizeAux]
        rw [if_neg h1, if_neg h2, if_neg h3, if_neg h4, if_neg h5]

/-- Model used for claims about a formula outside the lexical grammar. -/
def c7Model : DaeModel :=
  ⟨"mod", [], [⟨"x", StateType.ODE, "3 $ 4", "0", "main"⟩], []⟩

/-- C7: a formula string containing a character outside the supported
lexical grammar fails to tokenize with a MalformedExpression error, hence
`string2matlab` and `get_states` fail with the same error, and an export
of a model containing such a formula aborts with that error. -/
theorem c7_malformed_expression_aborts_export :
    (∀ s : String, (∃ c ∈ s.data, goodChar c = false) →
        tokenize s = .error .malformedExpression ∧
        (∀ P : List String, string2matlab P s = .error .malformedExpression) ∧
        (∀ S : List String, get_states S s = .error .malformedExpression)) ∧
    (export_class c7Model 1).2 = .error .malformedExpression := by
  constructor
  · intro s hbad
    have ht : tokenize s = .error .malformedExpression :=
      tokenizeAux_error_of_bad _ _ hbad
    exact ⟨ht, fun P => by simp [string2matlab, ht], fun S => by simp [get_states, ht]⟩
  · rfl

/-- Witness for C7 at a concrete malformed input. -/
theorem c7_malformed_expression_aborts_export_witness :
    tokenize "a ? b" = .error .malformedExpression ∧
    (∀ P : List String, string2matlab P "a ? b" = .error .malformedExpression) ∧
    (∀ S : List String, get_states S "a ? b" = .error .malformedExpression) :=
  c7_malformed_expression_aborts_export.1 "a ? b" (by decide)

/-! ### Behaviour of the resolver on cyclic and ill-formed models -/

/-- The cyclic model of claim C1: assignment states `A` and `B` whose
equations reference each other. -/
def c1States : List DaeState :=
  [⟨"A", StateType.ASSIGMENT, "B", "0", "main"⟩,
   ⟨"B", StateType.ASSIGMENT, "A", "0", "main"⟩]

/-- C1 (behaviour the code actually has): on the cyclic model the
resolver's `while` loop never exits — for every number of scans the loop
is still running (`.ok none`), and no error of any kind is raised.  The
source has no progress check and no CyclicDependency error, so the claimed
behaviour (raise CyclicDependency naming the stuck states, and terminate)
does not occur; the export hangs instead. -/
theorem c1_cyclic_model_loops_forever :
    ∀ fuel : Nat, write_local_states [] c1States fuel = .ok none
  | 0 => rfl
  | fuel + 1 =>
    Eq.trans
      (rfl : write_local_states [] c1States (fuel + 1) =
        write_local_states [] c1States fuel)
      (c1_cyclic_model_loops_forever fuel)

/-- The model of claim C5: the ASSIGMENT state `y` references `q`, an
identifier that is neither a parameter id nor a state id. -/
def c5Model : DaeModel :=
  ⟨"mod", [],
   [⟨"x", StateType.ODE, "x", "0", "main"⟩,
    ⟨"y", StateType.ASSIGMENT, "q+x", "0", "main"⟩], []⟩

/-- C5 (behaviour the code actually has): `get_states` drops the unknown
identifier `q` (it is not a state id), so `y` resolves as if it had no
such dependency, the export completes with no error of any kind, and the
generated file contains the line `y = q + x;` with `q` passed through
verbatim.  The claimed behaviour (fail with CyclicDependency, never let
the unknown identifier reach the output) does not occur. -/
theorem c5_unknown_identifier_passed_through :
    ∃ lines, (export_class c5Model 3).2 = .ok (some lines) ∧
      "\t\t\ty = q + x;\n" ∈ lines ∧
      (export_class c5Model 3).1 = [FileEvent.fopen, FileEvent.fclose] := by
  refine ⟨_, rfl, ?_, rfl⟩
  decide

/-! ### File-handle discipline of the emission calls -/

/-- The model of claim C8's counterexample: one ODE state whose equation
contains a character outside the lexical grammar, so the translator fails
while `export_class` is emitting. -/
def c8BadModel : DaeModel :=
  ⟨"mod", [], [⟨"x", StateType.ODE, "3 $ 4", "0", "main"⟩], []⟩

/-- Counterexample to C8 as stated: when the translator fails partway
through `export_class`'s emission, the `f.close()` call is never reached —
the trace holds the open event but no close event, so the handle is not
released on this exit path. -/
theorem c8_handle_not_closed_on_error :
    (export_class c8BadModel 1).1 = [FileEvent.fopen] ∧
    FileEvent.fclose ∉ (export_class c8BadModel 1).1 ∧
    (export_class c8BadModel 1).2 = .error .malformedExpression := by
  exact ⟨rfl, by decide, rfl⟩

/-- C8 as amended: `export_example` always reaches its close, and
`export_class` reaches its close exactly on the successful completion
path; when the translator raises (or the resolver loops) partway through,
the close is skipped. -/
theorem c8_amended_handle_closed_on_success :
    (∀ m : DaeModel, (export_example m).1 = [FileEvent.fopen, FileEvent.fclose]) ∧
    (∀ (m : DaeModel) (fuel : Nat) (lines : List String),
        (export_class m fuel).2 = .ok (some lines) →
        (export_class m fuel).1 = [FileEvent.fopen, FileEvent.fclose]) := by
  constructor
  · intro m
    rfl
  · intro m fuel lines h
    simp only [export_class] at h ⊢
    rcases hb : classBody m fuel with e | o
    · rw [hb] at h
      simp at h
    · rcases o with _ | l
      · rw [hb] at h
        simp at h
      · rfl

/-- The well-formed model used as the witness for C8's amended claim. -/
def c8GoodModel : DaeModel :=
  ⟨"ok", [], [⟨"x", StateType.ODE, "x", "0", "main"⟩], []⟩

/-- Witness for C8's amended claim at a concrete input. -/
theorem c8_amended_handle_closed_on_success_witness :
    (export_example c8GoodModel).1 = [FileEvent.fopen, FileEvent.fclose] ∧
    (export_class c8GoodModel 1).1 = [FileEvent.fopen, FileEvent.fclose] :=
  ⟨c8_amended_handle_closed_on_success.1 c8GoodModel,
   c8_amended_handle_closed_on_success.2 c8GoodModel 1 _ rfl⟩

/-! ### Anatomy of one resolver scan -/

/-- Case analysis of one scan-step of the resolver: either the step leaves
the accumulator unchanged (and if the state was an unresolved ASSIGMENT,
its dependency check failed), or the state is an unresolved ASSIGMENT
whose dependencies are all known, and its id and defining line are
appended. -/
lemma scanStep_cases (P ids : List String) (acc : List String × List String)
    (st : DaeState) (acc2 : List String × List String)
    (h : scanStep P ids acc st = .ok acc2) :
    (acc2 = acc ∧ (st.type = StateType.ASSIGMENT → st.id ∉ acc.1 →
        ∃ deps, get_states ids st.equation = .ok deps ∧
          ¬ ∀ r ∈ deps, r ∈ acc.1)) ∨
    (st.type = StateType.ASSIGMENT ∧ st.id ∉ acc.1 ∧
      ∃ deps eq, get_states ids st.equation = .ok deps ∧
        (∀ r ∈ deps, r ∈ acc.1) ∧
        string2matlab P st.equation = .ok eq ∧
        acc2 = (acc.1 ++ [st.id],
          acc.2 ++ ["\t\t\t" ++ st.id ++ " = " ++ eq ++ ";\n"])) := by
  unfold scanStep at h
  split at h
  · rename_i h1
    split at h
    · rename_i h2
      injection h with h4
      exact Or.inl ⟨h4.symm, fun _ hni => absurd h2 hni⟩
    · rename_i h2
      split at h
      · exact Except.noConfusion h
      · rename_i deps heq
        split at h
        · rename_i h3
          split at h
          · exact Except.noConfusion h
          · rename_i eq heq2
            injection h with h4
            exact Or.inr ⟨h1, h2, deps, eq, heq, h3, heq2, h4.symm⟩
        · rename_i h3
          injection h with h4
          exact Or.inl ⟨h4.symm, fun _ _ => ⟨deps, heq, h3⟩⟩
  · rename_i h1
    injection h with h4
    exact Or.inl ⟨h4.symm, fun ha => absurd ha h1⟩

/-- One full scan only appends: the new known list extends the old one,
and what it appends is a sublist of the ASSIGMENT state ids in their
declaration order (the stable tie-break of the scan). -/
lemma scanList_decomp (P ids : List String) :
    ∀ (l : List DaeState) (acc acc2 : List String × List String),
      scanList P ids acc l = .ok acc2 →
      ∃ added, acc2.1 = acc.1 ++ added ∧
        added.Sublist ((l.filter
          (fun s => decide (s.type = StateType.ASSIGMENT))).map (fun s => s.id)) := by
  intro l
  induction l with
  | nil =>
    intro acc acc2 h
    injection h with h4
    exact ⟨[], by simp [h4], by simp⟩
  | cons st rest ih =>
    intro acc acc2 h
    unfold scanList at h
    split at h
    · exact Except.noConfusion h
    · rename_i acc1 hstep
      obtain ⟨a2, ha2, hs2⟩ := ih acc1 acc2 h
      rcases scanStep_cases P ids acc st acc1 hstep with
        ⟨heq, -⟩ | ⟨hasg, -, deps, eq, -, -, -, hacc1⟩
      · subst heq
        refine ⟨a2, ha2, ?_⟩
        by_cases hst : st.type = StateType.ASSIGMENT
        · have hf : (st :: rest).filter (fun s => decide (s.type = StateType.ASSIGMENT)) =
              st :: rest.filter (fun s => decide (s.type = StateType.ASSIGMENT)) := by
            simp [List.filter_cons, hst]
          rw [hf, List.map_cons]
          exact hs2.cons _
        · have hf : (st :: rest).filter (fun s => decide (s.type = StateType.ASSIGMENT)) =
              rest.filter (fun s => decide (s.type = StateType.ASSIGMENT)) := by
            simp [List.filter_cons, hst]
          rw [hf]
          exact hs2
      · subst hacc1
        refine ⟨st.id :: a2, ?_, ?_⟩
        · simp only [ha2, List.append_assoc, List.singleton_append]
        · have hf : (st :: rest).filter (fun s => decide (s.type = StateType.ASSIGMENT)) =
              st :: rest.filter (fun s => decide (s.type = StateType.ASSIGMENT)) := by
            simp [List.filter_cons, hasg]
          rw [hf, List.map_cons]
          exact hs2.cons₂ _

/-- C6: the resolver is deterministic — two runs on the same input are the
same value — and within one scan the states that become resolvable are
appended in their original declaration order (what a scan appends is a
sublist of the ASSIGMENT ids in declaration order). -/
theorem c6_deterministic_and_stable_tie_break :
    (∀ (P : List String) (states : List DaeState) (fuel : Nat),
        write_local_states P states fuel = write_local_states P states fuel) ∧
    (∀ (P ids : List String) (states : List DaeState)
        (acc acc2 : List String × List String),
        scanList P ids acc states = .ok acc2 →
        ∃ added, acc2.1 = acc.1 ++ added ∧
          added.Sublist ((states.filter
            (fun s => decide (s.type = StateType.ASSIGMENT))).map (fun s => s.id))) :=
  ⟨fun _ _ _ => rfl,
   fun P ids states acc acc2 h => scanList_decomp P ids states acc acc2 h⟩

/-- Model whose two ASSIGMENT states both become resolvable in the same
scan; their declaration order is `b` before `a`. -/
def c6Model : List DaeState :=
  [⟨"x", StateType.ODE, "x", "0", "main"⟩,
   ⟨"b", StateType.ASSIGMENT, "x", "0", "main"⟩,
   ⟨"a", StateType.ASSIGMENT, "x", "0", "main"⟩]

/-- Witness for C6 at a concrete input: one scan resolves `b` then `a`,
in declaration order, even though the reverse order is alphabetical. -/
theorem c6_deterministic_and_stable_tie_break_witness :
    ∃ added, (["x", "b", "a"] : List String) = ["x"] ++ added ∧
      added.Sublist ((c6Model.filter
        (fun s => decide (s.type = StateType.ASSIGMENT))).map (fun s => s.id)) :=
  c6_deterministic_and_stable_tie_break.2 []
    (c6Model.map (fun s : DaeState => s.id)) c6Model
    (["x"], []) (["x", "b", "a"], ["\t\t\tb = x;\n", "\t\t\ta = x;\n"]) rfl

/-! ### Shape of the resolver's output order -/

/-- Whenever the resolver loop exits, its output extends the initial known
list by ASSIGMENT state ids only. -/
lemma loop_decomp (P ids : List String) (states : List DaeState) (statesNum : Nat) :
    ∀ (fuel : Nat) (acc : List String × List String) (out lines2 : List String),
      localStatesLoop P ids states statesNum fuel acc = .ok (some (out, lines2)) →
      ∃ added, out = acc.1 ++ added ∧
        ∀ x ∈ added, x ∈ (states.filter
          (fun s => decide (s.type = StateType.ASSIGMENT))).map (fun s => s.id) := by
  intro fuel
  induction fuel with
  | zero =>
    intro acc out lines2 h
    injection h with h4
    exact Option.noConfusion h4
  | succ n ih =>
    intro acc out lines2 h
    unfold localStatesLoop at h
    split at h
    · injection h with h4
      injection h4 with h5
      subst h5
      exact ⟨[], by simp, by simp⟩
    · split at h
      · exact Except.noConfusion h
      · rename_i acc2 hscan
        obtain ⟨a2, ha2, hmem2⟩ := ih acc2 out lines2 h
        obtain ⟨a1, ha1, hs1⟩ := scanList_decomp P ids states acc acc2 hscan
        refine ⟨a1 ++ a2, ?_, ?_⟩
        · rw [ha2, ha1, List.append_assoc]
        · intro x hx
          rcases List.mem_append.1 hx with hx | hx
          · exact hs1.subset hx
          · exact hmem2 x hx

/-- The known-states component of the first loop of `write_local_states`
is the ODE/ALGEBRAIC ids in declaration order. -/
lemma odeAlgFold_fst :
    ∀ (states : List DaeState) (acc : List String × List String × Nat),
      (List.foldl odeAlgStep acc states).1 = acc.1 ++ odeAlgIds states := by
  intro states
  induction states with
  | nil => intro acc; simp [odeAlgIds]
  | cons st rest ih =>
    intro acc
    by_cases hst : st.type = StateType.ODE ∨ st.type = StateType.ALGEBRAIC
    · have hf : odeAlgIds (st :: rest) = st.id :: odeAlgIds rest := by
        simp [odeAlgIds, List.filter_cons, hst]
      have hstep : odeAlgStep acc st =
          (acc.1 ++ [st.id],
           acc.2.1 ++ ["\t\t\t" ++ st.id ++ " = x(" ++ toString acc.2.2 ++ ",:);\n"],
           acc.2.2 + 1) := by
        simp [odeAlgStep, hst]
      rw [List.foldl_cons, hf, hstep, ih]
      simp [List.append_assoc]
    · have hf : odeAlgIds (st :: rest) = odeAlgIds rest := by
        simp [odeAlgIds, List.filter_cons, hst]
      have hstep : odeAlgStep acc st = acc := by simp [odeAlgStep, hst]
      rw [List.foldl_cons, hf, hstep, ih]

/-- C9: whenever the resolver loop exits, its output order starts with all
ODE and ALGEBRAIC state ids in their declaration order, and everything
after that prefix is an ASSIGMENT state id. -/
theorem c9_ode_algebraic_precede_assignments
    (P : List String) (states : List DaeState) (fuel : Nat)
    (out lines : List String)
    (h : write_local_states P states fuel = .ok (some (out, lines))) :
    out.take (odeAlgIds states).length = odeAlgIds states ∧
    ∀ x ∈ out.drop (odeAlgIds states).length,
      x ∈ (states.filter (fun s => decide (s.type = StateType.ASSIGMENT))).map
        (fun s => s.id) := by
  simp only [write_local_states] at h
  split at h
  · exact Except.noConfusion h
  · injection h with h4
    exact Option.noConfusion h4
  · rename_i known ls hloop
    injection h with h4
    injection h4 with h5
    injection h5 with h6 h7
    subst h6
    obtain ⟨added, hout, hmem⟩ :=
      loop_decomp P (states.map (fun s => s.id)) states states.length fuel
        _ known ls hloop
    have hpre : (odeAlgInit states).1 = odeAlgIds states := by
      have := odeAlgFold_fst states ([], [], 1)
      simpa [odeAlgInit] using this
    rw [hout, hpre]
    constructor
    · exact List.take_left _ _
    · rw [List.drop_left]
      exact hmem

/-- Model for the C9 witness: one ODE state and one ASSIGMENT state. -/
def c9Model : List DaeState :=
  [⟨"x", StateType.ODE, "x", "0", "main"⟩,
   ⟨"y", StateType.ASSIGMENT, "x", "0", "main"⟩]

/-- Witness for C9 at a concrete input. -/
theorem c9_ode_algebraic_precede_assignments_witness :
    (["x", "y"] : List String).take (odeAlgIds c9Model).length = odeAlgIds c9Model ∧
    ∀ x ∈ (["x", "y"] : List String).drop (odeAlgIds c9Model).length,
      x ∈ (c9Model.filter (fun s => decide (s.type = StateType.ASSIGMENT))).map
        (fun s => s.id) :=
  c9_ode_algebraic_precede_assignments [] c9Model 2 ["x", "y"] _ rfl

/-! ### Infrastructure for the topological-order theorem -/

/-- If the images under `f` are pairwise distinct, `f` is injective on the
list's members. -/
lemma nodup_map_inj {α β : Type} (f : α → β) :
    ∀ (l : List α), (l.map f).Nodup →
      ∀ a ∈ l, ∀ b ∈ l, f a = f b → a = b := by
  intro l
  induction l with
  | nil => intro _ a ha; cases ha
  | cons x xs ih =>
    intro hnd a ha b hb hf
    simp only [List.map_cons, List.nodup_cons] at hnd
    obtain ⟨hx, hnd2⟩ := hnd
    rcases List.mem_cons.1 ha with rfl | ha2 <;> rcases List.mem_cons.1 hb with rfl | hb2
    · rfl
    · exact absurd (by rw [hf]; exact List.mem_map_of_mem f hb2) hx
    · exact absurd (by rw [← hf]; exact List.mem_map_of_mem f ha2) hx
    · exact ih hnd2 a ha2 b hb2 hf

/-- Appending on the right does not change the index of an element already
present. -/
lemma indexOf_append_left (x : String) :
    ∀ (l t : List String), x ∈ l → (l ++ t).indexOf x = l.indexOf x := by
  intro l t
  induction l with
  | nil => intro hx; cases hx
  | cons a l ih =>
    intro hx
    by_cases hax : a = x
    · subst hax
      simp [List.indexOf_cons_self]
    · rw [List.cons_append, List.indexOf_cons_ne _ hax, List.indexOf_cons_ne _ hax,
        ih (List.mem_of_ne_of_mem (fun he => hax he.symm) hx)]

/-- The index of a freshly appended element is the old length. -/
lemma indexOf_append_self (x : String) :
    ∀ l : List String, x ∉ l → (l ++ [x]).indexOf x = l.length := by
  intro l
  induction l with
  | nil => intro _; simp [List.indexOf_cons_self]
  | cons a l ih =>
    intro hx
    have hax : a ≠ x := fun he => hx (he ▸ List.mem_cons_self a l)
    rw [List.cons_append, List.indexOf_cons_ne _ hax,
      ih (fun hm => hx (List.mem_cons_of_mem a hm))]
    simp

/-- Everything `get_states` returns is one of the ids it was given. -/
lemma get_states_subset (S : List String) (e : String) (l : List String)
    (h : get_states S e = .ok l) : ∀ x ∈ l, x ∈ S := by
  unfold get_states at h
  split at h
  · exact Except.noConfusion h
  · rename_i ts htok
    injection h with h4
    subst h4
    intro x hx
    rw [foldl_stateStep] at hx
    simp only [List.nil_append] at hx
    obtain ⟨t, ht, hf⟩ := List.mem_filterMap.1 hx
    cases t with
    | name n =>
      simp only [nameIn] at hf
      by_cases hn : n ∈ S
      · rw [if_pos hn] at hf
        injection hf with h5
        exact h5 ▸ hn
      · rw [if_neg hn] at hf
        exact Option.noConfusion hf
    | number v => exact Option.noConfusion hf
    | op o => exact Option.noConfusion hf

/-- When the formula lexes, `get_states` succeeds. -/
lemma get_states_ok_of_tokenize (S : List String) (e : String) (ts : List Token)
    (h : tokenize e = .ok ts) :
    get_states S e = .ok (ts.foldl (stateStep S) []) := by
  unfold get_states
  rw [h]

/-- When the formula lexes, `string2matlab` succeeds. -/
lemma string2matlab_ok_of_tokenize (P : List String) (e : String) (ts : List Token)
    (h : tokenize e = .ok ts) :
    string2matlab P e = .ok (ts.foldl (tokStep P) "") := by
  unfold string2matlab
  rw [h]

/-- `depsOf` is the successful value of `get_states`. -/
lemma depsOf_eq (states : List DaeState) (s : DaeState) (deps : List String)
    (h : get_states (states.map (fun t => t.id)) s.equation = .ok deps) :
    depsOf states s = deps := by
  unfold depsOf
  rw [h]

/-- Invariant of the resolver's known-state list: no duplicates, only
state ids, all ODE/ALGEBRAIC ids present, and every ASSIGMENT id present
appears after all its references. -/
structure Inv (states : List DaeState) (known : List String) : Prop where
  nodup : known.Nodup
  subset : ∀ x ∈ known, x ∈ states.map (fun s => s.id)
  odealg : ∀ s ∈ states, (s.type = StateType.ODE ∨ s.type = StateType.ALGEBRAIC) →
    s.id ∈ known
  ordered : ∀ s ∈ states, s.type = StateType.ASSIGMENT → s.id ∈ known →
    ∀ r ∈ depsOf states s, r ∈ known ∧ known.indexOf r < known.indexOf s.id

/-- A scan step cannot fail when the state's formula lexes. -/
lemma scanStep_isOk (P ids : List String) (acc : List String × List String)
    (st : DaeState) (ts : List Token) (hts : tokenize st.equation = .ok ts) :
    ∃ acc1, scanStep P ids acc st = .ok acc1 := by
  rcases hv : scanStep P ids acc st with e | acc1
  · exfalso
    unfold scanStep at hv
    split at hv
    · split at hv
      · exact Except.noConfusion hv
      · split at hv
        · rename_i e2 hge
          rw [get_states_ok_of_tokenize ids _ _ hts] at hge
          exact Except.noConfusion hge
        · split at hv
          · split at hv
            · rename_i e2 hse
              rw [string2matlab_ok_of_tokenize P _ _ hts] at hse
              exact Except.noConfusion hse
            · exact Except.noConfusion hv
          · exact Except.noConfusion hv
    · exact Except.noConfusion hv
  · exact ⟨acc1, rfl⟩

/-- One scan step preserves the invariant. -/
lemma scanStep_inv (P : List String) (states : List DaeState)
    (hND : (states.map (fun s => s.id)).Nodup)
    (st : DaeState) (hst : st ∈ states)
    (acc acc2 : List String × List String)
    (hInv : Inv states acc.1)
    (h : scanStep P (states.map (fun s => s.id)) acc st = .ok acc2) :
    Inv states acc2.1 := by
  rcases scanStep_cases _ _ _ _ _ h with
    ⟨heq, -⟩ | ⟨hasg, hnotin, deps, eq, hg, hall, -, hacc2⟩
  · rw [heq]
    exact hInv
  · rw [hacc2]
    have hdeps := depsOf_eq states st deps hg
    constructor
    · exact List.Nodup.append hInv.nodup (by simp)
        (fun a ha hmem => by
          rw [List.mem_singleton] at hmem
          exact hnotin (hmem ▸ ha))
    · intro x hx
      rcases List.mem_append.1 hx with hx | hx
      · exact hInv.subset x hx
      · rw [List.mem_singleton] at hx
        exact hx ▸ List.mem_map_of_mem (fun s => s.id) hst
    · intro s hs htyp
      exact List.mem_append_left _ (hInv.odealg s hs htyp)
    · intro s hs hsasg hsmem r hr
      rcases List.mem_append.1 hsmem with hsin | hsin
      · obtain ⟨hrk, hidx⟩ := hInv.ordered s hs hsasg hsin r hr
        refine ⟨List.mem_append_left _ hrk, ?_⟩
        rw [indexOf_append_left r acc.1 [st.id] hrk,
          indexOf_append_left s.id acc.1 [st.id] hsin]
        exact hidx
      · rw [List.mem_singleton] at hsin
        have hseq : s = st :=
          nodup_map_inj (fun s => s.id) states hND s hs st hst hsin
        subst hseq
        rw [hdeps] at hr
        have hrk : r ∈ acc.1 := hall r hr
        refine ⟨List.mem_append_left _ hrk, ?_⟩
        rw [indexOf_append_left r acc.1 [s.id] hrk, ← hsin, hsin,
          indexOf_append_self s.id acc.1 hnotin]
        exact List.indexOf_lt_length.2 hrk

/-- A full scan succeeds on lexable equations and preserves the
invariant. -/
lemma scanList_ok_inv (P : List String) (states : List DaeState)
    (hND : (states.map (fun s => s.id)).Nodup) :
    ∀ (l : List DaeState), (∀ s ∈ l, s ∈ states) →
      (∀ s ∈ l, ∃ ts, tokenize s.equation = .ok ts) →
      ∀ (acc : List String × List String), Inv states acc.1 →
      ∃ acc2, scanList P (states.map (fun s => s.id)) acc l = .ok acc2 ∧
        Inv states acc2.1 := by
  intro l
  induction l with
  | nil =>
    intro _ _ acc hInv
    exact ⟨acc, rfl, hInv⟩
  | cons st rest ih =>
    intro hsub htok acc hInv
    obtain ⟨ts, hts⟩ := htok st (List.mem_cons_self st rest)
    obtain ⟨acc1, hstep⟩ := scanStep_isOk P (states.map (fun s => s.id)) acc st ts hts
    have hInv1 := scanStep_inv P states hND st (hsub st (List.mem_cons_self st rest))
      acc acc1 hInv hstep
    obtain ⟨acc2, hrest, hInv2⟩ :=
      ih (fun s hs => hsub s (List.mem_cons_of_mem st hs))
        (fun s hs => htok s (List.mem_cons_of_mem st hs)) acc1 hInv1
    refine ⟨acc2, ?_, hInv2⟩
    unfold scanList
    rw [hstep]
    exact hrest

/-- If a full scan adds nothing, every unresolved ASSIGMENT state is
blocked: some reference of it is still unresolved. -/
lemma scanList_fix_blocked (P ids : List String) :
    ∀ (l : List DaeState) (acc acc2 : List String × List String),
      scanList P ids acc l = .ok acc2 → acc2.1 = acc.1 →
      ∀ st ∈ l, st.type = StateType.ASSIGMENT → st.id ∉ acc.1 →
        ∃ deps, get_states ids st.equation = .ok deps ∧
          ∃ r ∈ deps, r ∉ acc.1 := by
  intro l
  induction l with
  | nil =>
    intro acc acc2 h hfix st hst
    cases hst
  | cons st0 rest ih =>
    intro acc acc2 h hfix st hst hasg hnotin
    unfold scanList at h
    split at h
    · exact Except.noConfusion h
    · rename_i acc1 hstep
      obtain ⟨a2, ha2, -⟩ := scanList_decomp P ids rest acc1 acc2 h
      rcases scanStep_cases P ids acc st0 acc1 hstep with
        ⟨heq, hblocked⟩ | ⟨-, -, deps0, eq0, -, -, -, hacc1⟩
      · subst heq
        rcases List.mem_cons.1 hst with rfl | hst2
        · obtain ⟨deps, hg, hnall⟩ := hblocked hasg hnotin
          push_neg at hnall
          exact ⟨deps, hg, hnall⟩
        · exact ih acc1 acc2 h hfix st hst2 hasg hnotin
      · exfalso
        rw [hacc1] at ha2
        rw [ha2] at hfix
        have hlen := congrArg List.length hfix
        simp [List.length_append] at hlen

/-- The id walk used to extract a cycle from a stuck scan. -/
def walkList (g : Nat → String) (start : Nat) : Nat → List String
  | 0 => []
  | len + 1 => g (start + 1) :: walkList g (start + 1) len

/-- A walk that follows edges is a chain. -/
lemma walkList_chain (R : String → String → Prop) (g : Nat → String)
    (hg : ∀ n, R (g n) (g (n + 1))) :
    ∀ (len start : Nat), List.Chain R (g start) (walkList g start len) := by
  intro len
  induction len with
  | zero => intro start; exact List.Chain.nil
  | succ m ih => intro start; exact List.Chain.cons (hg start) (ih (start + 1))

/-- Peeling the last element off a walk. -/
lemma walkList_snoc (g : Nat → String) :
    ∀ (len start : Nat),
      walkList g start (len + 1) = walkList g start len ++ [g (start + len + 1)] := by
  intro len
  induction len with
  | zero =>
    intro start
    simp [walkList]
  | succ m ih =>
    intro start
    have h1 : walkList g start (m + 1 + 1) = g (start + 1) :: walkList g (start + 1) (m + 1) := rfl
    have h2 : walkList g start (m + 1) = g (start + 1) :: walkList g (start + 1) m := rfl
    rw [h1, ih (start + 1), h2]
    simp only [List.cons_append]
    have h3 : start + 1 + m + 1 = start + (m + 1) + 1 := by omega
    rw [h3]

/-- Progress: on an acyclic model with pairwise distinct state ids, a full
scan over a not-yet-complete known list strictly grows it.  Otherwise every
unresolved ASSIGMENT state would point at another unresolved one, and
iterating that choice inside the finite id set would close a cycle. -/
lemma scanList_growth (P : List String) (states : List DaeState)
    (hND : (states.map (fun s => s.id)).Nodup)
    (hacyc : Acyclic states)
    (acc acc2 : List String × List String)
    (hscan : scanList P (states.map (fun s => s.id)) acc states = .ok acc2)
    (hInv : Inv states acc.1)
    (hlen : acc.1.length ≠ states.length) :
    acc.1.length < acc2.1.length := by
  obtain ⟨added, hadd, -⟩ := scanList_decomp _ _ states acc acc2 hscan
  rcases added with _ | ⟨a0, arest⟩
  case cons =>
    rw [hadd]
    simp [List.length_append]
  case nil =>
    exfalso
    rw [List.append_nil] at hadd
    have hle : acc.1.length ≤ states.length := by
      have h := (List.subperm_of_subset hInv.nodup
        (fun x hx => hInv.subset x hx)).length_le
      simpa [List.length_map] using h
    have hex : ∃ x, x ∈ states.map (fun s => s.id) ∧ x ∉ acc.1 := by
      by_contra hno
      push_neg at hno
      have h := (List.subperm_of_subset hND (fun x hx => hno x hx)).length_le
      rw [List.length_map] at h
      omega
    obtain ⟨x0, hx0ids, hx0not⟩ := hex
    have key : ∀ u : String, ∃ r : String,
        u ∈ states.map (fun s => s.id) → u ∉ acc.1 →
          ((r ∈ states.map (fun s => s.id) ∧ r ∉ acc.1) ∧ AsgEdge states u r) := by
      intro u
      by_cases hu : u ∈ states.map (fun s => s.id) ∧ u ∉ acc.1
      · obtain ⟨su, hsu, hsuid⟩ := List.mem_map.1 hu.1
        cases htyp : su.type with
        | ODE =>
          exact ⟨u, fun _ _ =>
            absurd (hsuid ▸ hInv.odealg su hsu (Or.inl htyp)) hu.2⟩
        | ALGEBRAIC =>
          exact ⟨u, fun _ _ =>
            absurd (hsuid ▸ hInv.odealg su hsu (Or.inr htyp)) hu.2⟩
        | ASSIGMENT =>
          obtain ⟨deps, hg, r, hrdeps, hrnot⟩ :=
            scanList_fix_blocked P (states.map (fun s => s.id)) states acc acc2
              hscan hadd su hsu htyp (by rw [hsuid]; exact hu.2)
          have hrids := get_states_subset _ _ _ hg r hrdeps
          refine ⟨r, fun _ _ => ⟨⟨hrids, hrnot⟩, ?_⟩⟩
          exact ⟨su, hsu, htyp, hsuid, by rw [depsOf_eq states su deps hg]; exact hrdeps⟩
      · exact ⟨u, fun h1 h2 => absurd ⟨h1, h2⟩ hu⟩
    choose F hF using key
    have hmem : ∀ n, F^[n] x0 ∈ states.map (fun s => s.id) ∧ F^[n] x0 ∉ acc.1 := by
      intro n
      induction n with
      | zero => exact ⟨hx0ids, hx0not⟩
      | succ m ihm =>
        rw [Function.iterate_succ_apply']
        exact (hF (F^[m] x0) ihm.1 ihm.2).1
    have hedge : ∀ n, AsgEdge states (F^[n] x0) (F^[n + 1] x0) := by
      intro n
      rw [Function.iterate_succ_apply']
      exact (hF (F^[n] x0) (hmem n).1 (hmem n).2).2
    have hcard : ∀ n ∈ Finset.range (states.length + 1),
        F^[n] x0 ∈ (states.map (fun s => s.id)).toFinset := by
      intro n _
      exact List.mem_toFinset.2 (hmem n).1
    have hlt : ((states.map (fun s => s.id)).toFinset).card <
        (Finset.range (states.length + 1)).card := by
      rw [Finset.card_range, List.toFinset_card_of_nodup hND, List.length_map]
      omega
    obtain ⟨i, hi, j, hj, hne, hgij⟩ :=
      Finset.exists_ne_map_eq_of_card_lt_of_maps_to hlt hcard
    have hcycle : ∀ i j : Nat, i < j → F^[i] x0 = F^[j] x0 → HasCycle states := by
      intro i j hij heq
      refine ⟨F^[i] x0, walkList (fun n => F^[n] x0) i (j - i - 1), ?_⟩
      have hchain : List.Chain (AsgEdge states) (F^[i] x0)
          (walkList (fun n => F^[n] x0) i (j - i)) :=
        walkList_chain (AsgEdge states) (fun n => F^[n] x0) hedge (j - i) i
      have hji : j - i = (j - i - 1) + 1 := by omega
      rw [hji, walkList_snoc] at hchain
      have hidx : i + (j - i - 1) + 1 = j := by omega
      rw [hidx, ← heq] at hchain
      exact hchain
    rcases Nat.lt_trichotomy i j with hij | hij | hij
    · exact hacyc (hcycle i j hij hgij)
    · exact hne hij
    · exact hacyc (hcycle j i hij hgij.symm)

/-- On an acyclic model with lexable equations and distinct ids, the
resolver loop exits within the fuel with a complete known list satisfying
the invariant. -/
lemma loop_completes (P : List String) (states : List DaeState)
    (hND : (states.map (fun s => s.id)).Nodup)
    (htok : ∀ s ∈ states, ∃ ts, tokenize s.equation = .ok ts)
    (hacyc : Acyclic states) :
    ∀ (fuel : Nat) (acc : List String × List String),
      Inv states acc.1 →
      states.length - acc.1.length < fuel →
      ∃ out lines2,
        localStatesLoop P (states.map (fun s => s.id)) states states.length fuel acc =
          .ok (some (out, lines2)) ∧
        Inv states out ∧ out.length = states.length := by
  intro fuel
  induction fuel with
  | zero =>
    intro acc _ hf
    omega
  | succ n ih =>
    intro acc hInv hfuel
    by_cases hdone : acc.1.length = states.length
    · refine ⟨acc.1, acc.2, ?_, hInv, hdone⟩
      unfold localStatesLoop
      rw [if_pos hdone]
    · obtain ⟨acc2, hscan, hInv2⟩ :=
        scanList_ok_inv P states hND states (fun s hs => hs) htok acc hInv
      have hgrow := scanList_growth P states hND hacyc acc acc2 hscan hInv hdone
      have hle2 : acc2.1.length ≤ states.length := by
        have h := (List.subperm_of_subset hInv2.nodup
          (fun x hx => hInv2.subset x hx)).length_le
        simpa [List.length_map] using h
      obtain ⟨out, lines2, hloop, hInvO, hlenO⟩ := ih acc2 hInv2 (by omega)
      refine ⟨out, lines2, ?_, hInvO, hlenO⟩
      unfold localStatesLoop
      rw [if_neg hdone, hscan]
      exact hloop

/-- C2: on a model with pairwise distinct state ids, lexable equations and
an acyclic assignment-state reference graph, the resolver terminates
(`states.length + 1` scans always suffice), its output order is a
permutation of all state ids (each exactly once), and every ASSIGMENT
state appears strictly after every state named by
`get_states(its equation, all state ids)`. -/
theorem c2_acyclic_resolver_topological_order
    (P : List String) (states : List DaeState)
    (hND : (states.map (fun s => s.id)).Nodup)
    (htok : ∀ s ∈ states, ∃ ts, tokenize s.equation = .ok ts)
    (hacyc : Acyclic states) :
    ∃ out lines,
      write_local_states P states (states.length + 1) = .ok (some (out, lines)) ∧
      out.Perm (states.map (fun s => s.id)) ∧
      ∀ s ∈ states, s.type = StateType.ASSIGMENT →
        ∀ deps, get_states (states.map (fun t => t.id)) s.equation = .ok deps →
          ∀ r ∈ deps, out.indexOf r < out.indexOf s.id := by
  have hpre : (odeAlgInit states).1 = odeAlgIds states := by
    have h := odeAlgFold_fst states ([], [], 1)
    simpa [odeAlgInit] using h
  have hsubl : List.Sublist (odeAlgIds states) (states.map (fun s => s.id)) := by
    unfold odeAlgIds
    exact List.Sublist.map (fun s => s.id) (List.filter_sublist states)
  have hInv0 : Inv states (odeAlgInit states).1 := by
    rw [hpre]
    constructor
    · exact hsubl.nodup hND
    · exact fun x hx => hsubl.subset hx
    · intro s hs htyp
      unfold odeAlgIds
      refine List.mem_map_of_mem (fun s => s.id) (List.mem_filter.2 ⟨hs, ?_⟩)
      exact decide_eq_true htyp
    · intro s hs hasg hmem r hr
      exfalso
      obtain ⟨t, htf, htid⟩ := List.mem_map.1 hmem
      have htmem := (List.mem_filter.1 htf).1
      have htype : t.type = StateType.ODE ∨ t.type = StateType.ALGEBRAIC := by
        have h := (List.mem_filter.1 htf).2
        simpa using h
      have hts : t = s := nodup_map_inj (fun s => s.id) states hND t htmem s hs htid
      rw [hts, hasg] at htype
      rcases htype with h | h <;> exact StateType.noConfusion h
  obtain ⟨out, lines2, hloop, hInvO, hlenO⟩ :=
    loop_completes P states hND htok hacyc (states.length + 1)
      ((odeAlgInit states).1,
       ["\t\t\t% ODE and algebraic states:\n"] ++ (odeAlgInit states).2.1 ++
         ["\n", "\t\t\t% Assigment states:\n"])
      hInv0 (by omega)
  have hperm : out.Perm (states.map (fun s => s.id)) := by
    have hsp := List.subperm_of_subset hInvO.nodup (fun x hx => hInvO.subset x hx)
    exact hsp.perm_of_length_le (by rw [List.length_map, hlenO])
  refine ⟨out, lines2 ++ ["\n"], ?_, hperm, ?_⟩
  · simp only [write_local_states]
    rw [hloop]
  · intro s hs hasg deps hg r hr
    have hsid : s.id ∈ out :=
      hperm.mem_iff.2 (List.mem_map_of_mem (fun s => s.id) hs)
    have hdeps := depsOf_eq states s deps hg
    exact (hInvO.ordered s hs hasg hsid r (by rw [hdeps]; exact hr)).2

/-- The end-to-end model of the specification: an ODE state `v1` and two
ASSIGMENT states, `a1` referencing `v1` and `a2` referencing `a1`. -/
def c2Model : List DaeState :=
  [⟨"v1", StateType.ODE, "v1*2", "0", "main"⟩,
   ⟨"a1", StateType.ASSIGMENT, "v1*2", "0", "main"⟩,
   ⟨"a2", StateType.ASSIGMENT, "a1+1", "0", "main"⟩]

/-- Witness for C2 at the specification's end-to-end model. -/
theorem c2_acyclic_resolver_topological_order_witness :
    ∃ out lines,
      write_local_states [] c2Model (c2Model.length + 1) = .ok (some (out, lines)) ∧
      out.Perm (c2Model.map (fun s => s.id)) ∧
      ∀ s ∈ c2Model, s.type = StateType.ASSIGMENT →
        ∀ deps, get_states (c2Model.map (fun t => t.id)) s.equation = .ok deps →
          ∀ r ∈ deps, out.indexOf r < out.indexOf s.id := by
  apply c2_acyclic_resolver_topological_order
  · decide
  · intro s hs
    fin_cases hs <;> exact ⟨_, rfl⟩
  · rintro ⟨a, l, hch⟩
    have hedge : ∀ x y, AsgEdge c2Model x y →
        (x = "a1" ∧ y = "v1") ∨ (x = "a2" ∧ y = "a1") := by
      rintro x y ⟨s, hs, hasg, hid, hdep⟩
      fin_cases hs
      · exact absurd hasg (by decide)
      · left
        have hdep2 : y ∈ (["v1"] : List String) := hdep
        exact ⟨hid.symm, List.mem_singleton.1 hdep2⟩
      · right
        have hdep2 : y ∈ (["a1"] : List String) := hdep
        exact ⟨hid.symm, List.mem_singleton.1 hdep2⟩
    have hlast : ∀ (l0 : List String) (b : String),
        List.Chain (AsgEdge c2Model) b (l0 ++ [a]) → ∃ z, AsgEdge c2Model z a := by
      intro l0
      induction l0 with
      | nil =>
        intro b hc
        rw [List.nil_append] at hc
        exact ⟨b, (List.chain_cons.1 hc).1⟩
      | cons c l1 ihl =>
        intro b hc
        rw [List.cons_append] at hc
        exact ihl c (List.chain_cons.1 hc).2
    obtain ⟨z, hz⟩ := hlast l a hch
    rcases hedge z a hz with ⟨-, rfl⟩ | ⟨-, rfl⟩
    · cases l with
      | nil =>
        rw [List.nil_append] at hch
        have h1 := (List.chain_cons.1 hch).1
        rcases hedge _ _ h1 with ⟨h2, -⟩ | ⟨h2, -⟩ <;> simp at h2
      | cons b l1 =>
        rw [List.cons_append] at hch
        have h1 := (List.chain_cons.1 hch).1
        rcases hedge _ _ h1 with ⟨h2, -⟩ | ⟨h2, -⟩ <;> simp at h2
    · cases l with
      | nil =>
        rw [List.nil_append] at hch
        have h1 := (List.chain_cons.1 hch).1
        rcases hedge _ _ h1 with ⟨-, h2⟩ | ⟨h2, -⟩ <;> simp at h2
      | cons b l1 =>
        rw [List.cons_append] at hch
        have h1 := (List.chain_cons.1 hch).1
        have h3 := (List.chain_cons.1 hch).2
        rcases hedge _ _ h1 with ⟨-, rfl⟩ | ⟨h2, -⟩
        · cases l1 with
          | nil =>
            rw [List.nil_append] at h3
            have h4 := (List.chain_cons.1 h3).1
            rcases hedge _ _ h4 with ⟨h5, -⟩ | ⟨h5, -⟩ <;> simp at h5
          | cons c l2 =>
            rw [List.cons_append] at h3
            have h4 := (List.chain_cons.1 h3).1
            rcases hedge _ _ h4 with ⟨h5, -⟩ | ⟨h5, -⟩ <;> simp at h5
        · simp at h2

end Sbml2dae
